import Mathlib

/-!
Verification development for the chunked transfer engine of the
Telegram-backed file storage service ("Unlimited-Storage-via-TG").

Byte sources are modelled as `List Nat` (each element one byte), chunk and
block sequences as `List (List Nat)`.  Stateful code (the upload worker, the
download pipeline, the HTTP delete route) is modelled by explicit state
passing: every database commit becomes one element of an explicit trace of
persisted states, and the external Telegram backend is an explicit oracle
parameter.  SHA-256 is implemented directly (FIPS 180-4) over `Nat` with
explicit reduction modulo `2 ^ 32`.

The file is organised as: all definitions first, then all theorems.
-/

namespace TGStorage

/-! ## Definitions — Chunk Splitter (`utils/chunker.py`) -/

/-- 20 MB strict limit (`CHUNK_SIZE_BYTES = 20 * 1024 * 1024` in `utils/chunker.py`). -/
def CHUNK_SIZE_BYTES : Nat := 20 * 1024 * 1024

/-- `yield_chunks` from `utils/chunker.py`: repeatedly `read` up to `C` bytes and
yield them until the read comes back empty.  The chunk size is taken as a
parameter `C`; the source fixes `C = CHUNK_SIZE_BYTES`.  (For `C = 0` a Python
`f.read(0)` returns `b""` immediately, so the loop breaks with no chunks;
the `C = 0` guard reproduces that.) -/
def yield_chunks (C : Nat) (src : List Nat) : List (List Nat) :=
  if h : C = 0 ∨ src = [] then []
  else src.take C :: yield_chunks C (src.drop C)
termination_by src.length
decreasing_by
  push_neg at h
  simp only [List.length_drop]
  have hpos : 0 < src.length := List.length_pos.mpr h.2
  omega

/-- `calculate_total_chunks` from `utils/chunker.py`:
`(file_size + CHUNK_SIZE_BYTES - 1) // CHUNK_SIZE_BYTES`, with the chunk size
as a parameter. -/
def calculate_total_chunks (C file_size : Nat) : Nat :=
  (file_size + C - 1) / C

/-! ## Definitions — SHA-256 (the `hashlib.sha256` dependency of
`utils/hasher.py` and `downloader.py`), FIPS 180-4 over `Nat` -/

/-- `2 ^ 32`, the modulus of 32-bit machine words. -/
def M32 : Nat := 4294967296

/-- 32-bit modular addition. -/
def add32 (a b : Nat) : Nat := (a + b) % M32

/-- 32-bit right rotation. -/
def rotr32 (n x : Nat) : Nat := ((x >>> n) ||| (x <<< (32 - n))) % M32

def bigSigma0 (x : Nat) : Nat := (rotr32 2 x) ^^^ (rotr32 13 x) ^^^ (rotr32 22 x)

def bigSigma1 (x : Nat) : Nat := (rotr32 6 x) ^^^ (rotr32 11 x) ^^^ (rotr32 25 x)

def smallSigma0 (x : Nat) : Nat := (rotr32 7 x) ^^^ (rotr32 18 x) ^^^ (x >>> 3)

def smallSigma1 (x : Nat) : Nat := (rotr32 17 x) ^^^ (rotr32 19 x) ^^^ (x >>> 10)

/-- SHA-256 `Ch(x, y, z)`; `NOT x` on 32 bits is `x XOR 0xFFFFFFFF`. -/
def chF (x y z : Nat) : Nat := (x &&& y) ^^^ ((x ^^^ 4294967295) &&& z)

/-- SHA-256 `Maj(x, y, z)`. -/
def majF (x y z : Nat) : Nat := (x &&& y) ^^^ (x &&& z) ^^^ (y &&& z)

/-- The 64 SHA-256 round constants, written as decimal word values. -/
def sha256K : List Nat :=
  [1116352408, 1899447441, 3049323471, 3921009573,
   961987163, 1508970993, 2453635748, 2870763221,
   3624381080, 310598401, 607225278, 1426881987,
   1925078388, 2162078206, 2614888103, 3248222580,
   3835390401, 4022224774, 264347078, 604807628,
   770255983, 1249150122, 1555081692, 1996064986,
   2554220882, 2821834349, 2952996808, 3210313671,
   3336571891, 3584528711, 113926993, 338241895,
   666307205, 773529912, 1294757372, 1396182291,
   1695183700, 1986661051, 2177026350, 2456956037,
   2730485921, 2820302411, 3259730800, 3345764771,
   3516065817, 3600352804, 4094571909, 275423344,
   430227734, 506948616, 659060556, 883997877,
   958139571, 1322822218, 1537002063, 1747873779,
   1955562222, 2024104815, 2227730452, 2361852424,
   2428436474, 2756734187, 3204031479, 3329325298]

/-- The eight 32-bit working variables of SHA-256. -/
structure Hash8 where
  a : Nat
  b : Nat
  c : Nat
  d : Nat
  e : Nat
  f : Nat
  g : Nat
  h : Nat
deriving DecidableEq, Repr

/-- The SHA-256 initial hash value. -/
def sha256H0 : Hash8 :=
  ⟨1779033703, 3144134277, 1013904242, 2773480762, 1359893119, 2600822924, 528734635, 1541459225⟩

/-- Big-endian grouping of bytes into 32-bit words. -/
def bytesToWords : List Nat → List Nat
  | b0 :: b1 :: b2 :: b3 :: rest => (((b0 * 256 + b1) * 256 + b2) * 256 + b3) :: bytesToWords rest
  | _ => []

/-- One step of the SHA-256 message-schedule extension. -/
def scheduleStep (w : List Nat) : List Nat :=
  w ++ [add32 (add32 (smallSigma1 (w.getD (w.length - 2) 0)) (w.getD (w.length - 7) 0))
          (add32 (smallSigma0 (w.getD (w.length - 15) 0)) (w.getD (w.length - 16) 0))]

/-- Iterate `scheduleStep`; extending 16 words by 48 steps gives `W[0..63]`. -/
def extendSchedule : Nat → List Nat → List Nat
  | 0, w => w
  | n + 1, w => extendSchedule n (scheduleStep w)

/-- One SHA-256 round on the working variables, taking `(W[t], K[t])`. -/
def roundStep (st : Hash8) (wk : Nat × Nat) : Hash8 :=
  let t1 := add32 st.h (add32 (bigSigma1 st.e) (add32 (chF st.e st.f st.g) (add32 wk.2 wk.1)))
  let t2 := add32 (bigSigma0 st.a) (majF st.a st.b st.c)
  ⟨add32 t1 t2, st.a, st.b, st.c, add32 st.d t1, st.e, st.f, st.g⟩

/-- The SHA-256 compression function on one 64-byte block. -/
def compress (hv : Hash8) (block : List Nat) : Hash8 :=
  let w := extendSchedule 48 (bytesToWords block)
  let r := (w.zip sha256K).foldl roundStep hv
  ⟨add32 hv.a r.a, add32 hv.b r.b, add32 hv.c r.c, add32 hv.d r.d,
   add32 hv.e r.e, add32 hv.f r.f, add32 hv.g r.g, add32 hv.h r.h⟩

/-- Compress as many complete 64-byte blocks as possible, returning the new
chaining value and the remaining (< 64) buffered bytes.  `fuel` only bounds
the recursion; any `fuel ≥ bytes.length` gives the fixpoint (`absorb_fuel`). -/
def absorb : Nat → Hash8 → List Nat → Hash8 × List Nat
  | 0, hv, bytes => (hv, bytes)
  | fuel + 1, hv, bytes =>
    if bytes.length < 64 then (hv, bytes)
    else absorb fuel (compress hv (bytes.take 64)) (bytes.drop 64)

/-- `absorb` with sufficient fuel. -/
def absorbA (hv : Hash8) (bytes : List Nat) : Hash8 × List Nat :=
  absorb bytes.length hv bytes

/-- The incremental hash accumulator: the state of a `hashlib.sha256()` object
(chaining value, unprocessed buffered bytes, total message length). -/
structure Sha256Ctx where
  hv : Hash8
  buf : List Nat
  len : Nat
deriving DecidableEq, Repr

/-- A fresh `hashlib.sha256()` accumulator. -/
def sha256_init : Sha256Ctx := ⟨sha256H0, [], 0⟩

/-- `hashlib`'s `update(data)`: append to the buffer and compress every
complete 64-byte block. -/
def Sha256Ctx.update (c : Sha256Ctx) (data : List Nat) : Sha256Ctx :=
  let hr := absorbA c.hv (c.buf ++ data)
  ⟨hr.1, hr.2, c.len + data.length⟩

/-- 64-bit big-endian encoding (of the message bit length). -/
def u64be (n : Nat) : List Nat :=
  [n / 2 ^ 56 % 256, n / 2 ^ 48 % 256, n / 2 ^ 40 % 256, n / 2 ^ 32 % 256,
   n / 2 ^ 24 % 256, n / 2 ^ 16 % 256, n / 2 ^ 8 % 256, n % 256]

/-- SHA-256 padding for a message of `len` bytes: `0x80`, zeros to 56 mod 64,
then the bit length as 64-bit big-endian. -/
def shaPadding (len : Nat) : List Nat :=
  128 :: (List.replicate ((119 - len % 64) % 64) 0 ++ u64be (len * 8 % 2 ^ 64))

/-- 32-bit word to 4 big-endian bytes. -/
def wordBytes (w : Nat) : List Nat :=
  [w / 2 ^ 24 % 256, w / 2 ^ 16 % 256, w / 2 ^ 8 % 256, w % 256]

/-- Finalization: pad, compress the final block(s), serialize the digest. -/
def Sha256Ctx.digestBytes (c : Sha256Ctx) : List Nat :=
  let final := c.buf ++ shaPadding c.len
  let hr := absorbA c.hv final
  wordBytes hr.1.a ++ wordBytes hr.1.b ++ wordBytes hr.1.c ++ wordBytes hr.1.d ++
  wordBytes hr.1.e ++ wordBytes hr.1.f ++ wordBytes hr.1.g ++ wordBytes hr.1.h

/-- Lower-case hex digit. -/
def hexChar (n : Nat) : Char := if n < 10 then Char.ofNat (48 + n) else Char.ofNat (87 + n)

/-- One byte as two lower-case hex characters. -/
def byteHex (b : Nat) : List Char := [hexChar (b / 16), hexChar (b % 16)]

/-- `hashlib`'s `hexdigest()`. -/
def Sha256Ctx.hexdigest (c : Sha256Ctx) : String :=
  ⟨(c.digestBytes.map byteHex).flatten⟩

/-- Invariant of every reachable accumulator: fewer than 64 buffered bytes. -/
def bufOk (c : Sha256Ctx) : Prop := c.buf.length < 64

/-! ## Definitions — Hasher (`utils/hasher.py`) -/

/-- `calculate_sha256` from `utils/hasher.py`: the one-shot hash of a complete
in-memory chunk (`sha256(); update(data); hexdigest()`). -/
def calculate_sha256 (data : List Nat) : String := (sha256_init.update data).hexdigest

/-- `calculate_file_hash` from `utils/hasher.py`: whole-file digest computed by
feeding the file to the accumulator in 4096-byte read blocks. -/
def calculate_file_hash (file : List Nat) : String :=
  ((yield_chunks 4096 file).foldl Sha256Ctx.update sha256_init).hexdigest

/-! ## Definitions — File records and the Upload Pipeline
(`app.py` upload route, `uploader.py` `UploadWorker.run`) -/

/-- Status column of the `files` table. -/
inductive FileStatus
  | uploading
  | completed
  | failed
deriving DecidableEq, Repr

/-- One row of the `files` table (schema in `db.py`), with the JSON-encoded
`message_ids` / `chunk_hashes` columns decoded to lists. -/
structure FileRecord where
  userId : Nat
  filename : String
  size : Nat
  chunks : Nat
  uploadedChunks : Nat
  messageIds : List Nat
  chunkHashes : List String
  fileHash : Option String
  status : FileStatus
deriving DecidableEq, Repr

/-- The row inserted by the `upload` route in `app.py`:
`(user_id, filename, file_size, 0, 'uploading', '[]', '[]')`, with
`uploaded_chunks` defaulting to 0 and `file_hash` to NULL. -/
def initialRecord (user : Nat) (filename : String) (file_size : Nat) : FileRecord :=
  { userId := user, filename := filename, size := file_size, chunks := 0,
    uploadedChunks := 0, messageIds := [], chunkHashes := [], fileHash := none,
    status := .uploading }

/-- Outcome of one backend `send_document` call: the resulting `message_id`,
or an exception whose text does (`isAuth = true`) or does not contain
`"401"` / `"Unauthorized"`. -/
inductive SendOutcome
  | ok (msgId : Nat)
  | fail (isAuth : Bool)
deriving DecidableEq, Repr

/-- Behaviour of the external world during one `UploadWorker.run`: whether the
`get_chat` preflight raises (and whether that exception is an authorization
failure), and the outcome of `send_document` for each 0-based chunk index. -/
structure UploadEnv where
  preflightError : Option Bool
  send : Nat → SendOutcome

/-- The persisted state visible to other transactions: the file row and the
owner's `users.credentials_verified` flag. -/
structure DbState where
  record : FileRecord
  credentialsVerified : Bool
deriving DecidableEq, Repr

/-- The `except` branch of `UploadWorker.run` (`uploader.py` lines 92-101):
set `status='failed'` and, when the exception text contains `"401"` or
`"Unauthorized"`, also set `credentials_verified = 0` for the owner; one
commit covers both updates. -/
def failState (st : DbState) (isAuth : Bool) : DbState :=
  { record := { st.record with status := .failed },
    credentialsVerified := if isAuth then false else st.credentialsVerified }

/-- The chunk loop of `UploadWorker.run`, returning the list of persisted
states (one per commit), ending with the terminal commit.  `idx` is the
0-based index of the next chunk; the source's `chunk_index` is `idx + 1`. -/
def runUploadChunks (env : UploadEnv) : List (List Nat) → Nat → DbState → List DbState
  | [], _, st =>
    [{ st with record := { st.record with status := .completed } }]
  | ch :: rest, idx, st =>
    match env.send idx with
    | .fail a => [failState st a]
    | .ok msgId =>
      let r := st.record
      let st' : DbState :=
        { st with record :=
            { r with uploadedChunks := idx + 1,
                     messageIds := r.messageIds ++ [msgId],
                     chunkHashes := r.chunkHashes ++ [calculate_sha256 ch] } }
      st' :: runUploadChunks env rest (idx + 1) st'

/-- `UploadWorker.run` from `uploader.py` as the sequence of persisted states
after the initial insert: preflight `get_chat`, then the
size/chunks/file_hash commit, then one commit per uploaded chunk, then the
terminal commit (completed, or failed via the `except` branch). -/
def uploadWorkerRun (env : UploadEnv) (fileBytes : List Nat) (st0 : DbState) : List DbState :=
  match env.preflightError with
  | some a => [failState st0 a]
  | none =>
    let size := fileBytes.length
    let st1 : DbState :=
      { st0 with record :=
          { st0.record with size := size,
                            chunks := calculate_total_chunks CHUNK_SIZE_BYTES size,
                            fileHash := some (calculate_file_hash fileBytes) } }
    st1 :: runUploadChunks env (yield_chunks CHUNK_SIZE_BYTES fileBytes) 0 st1

/-- Every persisted (observable) state of one upload, starting with the row
created by the `upload` route in `app.py`. -/
def uploadTrace (env : UploadEnv) (user : Nat) (filename : String) (fileBytes : List Nat)
    (credsOk : Bool) : List DbState :=
  let st0 : DbState := { record := initialRecord user filename fileBytes.length,
                         credentialsVerified := credsOk }
  st0 :: uploadWorkerRun env fileBytes st0

/-- `len(message_ids) == len(chunk_hashes) == uploaded_chunks` for a row. -/
def recordInSync (r : FileRecord) : Prop :=
  r.messageIds.length = r.chunkHashes.length ∧ r.messageIds.length = r.uploadedChunks

/-- `r'` extends `r` by appends only: the locator and hash sequences of `r`
are initial segments of those of `r'`. -/
def extendsRec (r r' : FileRecord) : Prop :=
  r.messageIds <+: r'.messageIds ∧ r.chunkHashes <+: r'.chunkHashes

/-- The first failing `send_document` among `n` attempted chunks starting at
index `idx`, with its authorization flag. -/
def firstSendFailure (send : Nat → SendOutcome) : Nat → Nat → Option Bool
  | _, 0 => none
  | idx, n + 1 =>
    match send idx with
    | .fail a => some a
    | .ok _ => firstSendFailure send (idx + 1) n

/-- The first failure during a run over `numChunks` chunks: the preflight
error if any, else the first failing send among the attempted chunks. -/
def firstUploadFailure (env : UploadEnv) (numChunks : Nat) : Option Bool :=
  match env.preflightError with
  | some a => some a
  | none => firstSendFailure env.send 0 numChunks

/-! ## Definitions — Telegram client credential (`telegram_client.py`) and the
process environment read via `os.getenv` -/

/-- A bot credential: token plus destination channel. -/
structure Credential where
  token : String
  channel : String
deriving DecidableEq, Repr

/-- The process-wide environment variables the source reads via `os.getenv`
(`telegram_client.py`: `BOT_TOKEN`, `CHANNEL_ID`; `app.py`: `SECRET_KEY`,
`UPLOAD_FOLDER`). -/
structure OsEnv where
  BOT_TOKEN : String
  CHANNEL_ID : String
  SECRET_KEY : String
  UPLOAD_FOLDER : String
deriving DecidableEq, Repr

/-- `TelegramClient.__init__`: `self.token = token or os.getenv('BOT_TOKEN')`,
`self.channel_id = channel_id or os.getenv('CHANNEL_ID')`; passing no
arguments selects the ambient process-wide default credential. -/
def mkTelegramClient (token channel : Option String) (env : OsEnv) : Credential :=
  { token := token.getD env.BOT_TOKEN, channel := channel.getD env.CHANNEL_ID }

/-! ## Definitions — Download Pipeline (`downloader.py`) -/

/-- Backend behaviour for one stored chunk when the pipeline processes it:
whether `forward_message` succeeds, whether the forwarded message carries a
`document`, whether the cleanup `delete_message` succeeds, whether
`get_file_path` (URL resolution) succeeds, whether the CDN fetch opens
(`raise_for_status`), and the network blocks of the response body. -/
structure BackendChunk where
  forwardOk : Bool
  hasDocument : Bool
  deleteOk : Bool
  resolveOk : Bool
  fetchOk : Bool
  blocks : List (List Nat)
deriving DecidableEq, Repr

/-- The exception that ends a download stream, tagged with the 0-based index
of the chunk it arose at. -/
inductive DlError
  | forwardFailed (i : Nat)
  | noDocument (i : Nat)
  | deleteFailed (i : Nat)
  | resolveFailed (i : Nat)
  | fetchFailed (i : Nat)
  | hashMismatch (i : Nat)
  | indexError (i : Nat)
deriving DecidableEq, Repr

/-- The blocks the generator yields for one chunk: `if block:` filters out
empty keep-alive chunks. -/
def emittedBlocks (ch : BackendChunk) : List (List Nat) :=
  ch.blocks.filter (fun b => !b.isEmpty)

/-- The incremental hash the generator computes for one chunk: a fresh
`hashlib.sha256()` updated once per emitted block, then `hexdigest()`. -/
def chunkStreamHash (ch : BackendChunk) : String :=
  ((emittedBlocks ch).foldl Sha256Ctx.update sha256_init).hexdigest

/-- `stream_single_chunk_verified` from `downloader.py`: forward the stored
message, require a `document` in the forward result, delete the duplicate
message, resolve the CDN URL, open the streaming fetch, yield each non-empty
block while hashing it incrementally, then compare the final digest with the
recorded hash.  Result: the blocks yielded to the consumer, and the exception
(if any) that ends the generator.  Every failing step raises — the
`delete_message` call is not guarded, so its failure also raises, before any
block of the chunk is yielded. -/
def stream_single_chunk_verified (ch : BackendChunk) (expectedHash : String) (i : Nat) :
    List (List Nat) × Option DlError :=
  if ¬ch.forwardOk then ([], some (.forwardFailed i))
  else if ¬ch.hasDocument then ([], some (.noDocument i))
  else if ¬ch.deleteOk then ([], some (.deleteFailed i))
  else if ¬ch.resolveOk then ([], some (.resolveFailed i))
  else if ¬ch.fetchOk then ([], some (.fetchFailed i))
  else
    (emittedBlocks ch,
      if chunkStreamHash ch ≠ expectedHash then some (.hashMismatch i) else none)

/-- The metadata dict returned by `prepare_download_data` and consumed by
`create_download_stream` (plain data, no database or session handles). -/
structure DownloadData where
  filename : String
  size : Nat
  message_ids : List Nat
  chunk_hashes : List String
  chunks : Nat
deriving DecidableEq, Repr

/-- The chunk loop of `create_download_stream`: for each `msg_id` (0-based
index `i`), evaluate `chunk_hashes[i]` (a Python `IndexError` would abort
before the chunk streams), run `stream_single_chunk_verified`, forward its
blocks to the consumer, and re-raise its exception, ending the stream. -/
def runDlChunks (backend : Credential → Nat → BackendChunk) (cred : Credential)
    (hashes : List String) : Nat → List Nat → List (List Nat) × Option DlError
  | _, [] => ([], none)
  | i, m :: ms =>
    match hashes[i]? with
    | none => ([], some (.indexError i))
    | some hsh =>
      let res := stream_single_chunk_verified (backend cred m) hsh i
      match res.2 with
      | some e => (res.1, some e)
      | none =>
        let rest := runDlChunks backend cred hashes (i + 1) ms
        (res.1 ++ rest.1, rest.2)

/-- `create_download_stream` from `downloader.py`: builds its own
`TelegramClient()` with **no arguments** — the credential comes from the
ambient process environment — then streams every chunk in order.  The backend
oracle maps (credential, message id) to that chunk's behaviour. -/
def create_download_stream (backend : Credential → Nat → BackendChunk) (env : OsEnv)
    (dd : DownloadData) : List (List Nat) × Option DlError :=
  runDlChunks backend (mkTelegramClient none none env) dd.chunk_hashes 0 dd.message_ids

/-- Per-chunk success: every backend step succeeds and the streamed hash
equals the recorded hash. -/
def chunkOk (ch : BackendChunk) (hsh : String) : Prop :=
  ch.forwardOk = true ∧ ch.hasDocument = true ∧ ch.deleteOk = true ∧
  ch.resolveOk = true ∧ ch.fetchOk = true ∧ chunkStreamHash ch = hsh

/-- Result of `prepare_download_data`: Python `None` for a missing row, an
error dict `{'error': msg, 'code': code}`, or the metadata dict. -/
inductive PrepareResult
  | missing
  | error (msg : String) (code : Nat)
  | ok (dd : DownloadData)
deriving DecidableEq, Repr

/-- `prepare_download_data` from `downloader.py`: read the row by id, gate on
`status == 'completed'`, decode `message_ids` / `chunk_hashes`, reject an
empty locator list, and return plain data. -/
def prepare_download_data (db : Nat → Option FileRecord) (file_id : Nat) : PrepareResult :=
  match db file_id with
  | none => .missing
  | some row =>
    if row.status ≠ .completed then .error "File not ready for download" 400
    else if row.messageIds = [] then .error "No chunks found for file" 500
    else .ok { filename := row.filename, size := row.size,
               message_ids := row.messageIds, chunk_hashes := row.chunkHashes,
               chunks := row.chunks }

/-! ## Definitions — file deletion route (`app.py` `delete_file`) -/

/-- HTTP response of the delete route. -/
inductive DeleteResp
  | success
  | notFound
  | inProgress
deriving DecidableEq, Repr

/-- `TelegramClient.delete_message` against a backend message store
(`tg m = true` iff message `m` still exists): deleting a missing message is a
backend API error, surfaced as an exception (`none`). -/
def tgDeleteMessage (tg : Nat → Bool) (m : Nat) : Option (Nat → Bool) :=
  if tg m then some (fun k => if k = m then false else tg k) else none

/-- The cleanup loop of the delete route:
`try: client.delete_message(msg_id) except: pass` for every locator — a
failed delete changes nothing and the exception is swallowed. -/
def deleteMessagesLoop (tg : Nat → Bool) (ids : List Nat) : Nat → Bool :=
  ids.foldl (fun s m =>
    match tgDeleteMessage s m with
    | some s' => s'
    | none => s) tg

/-- `delete_file` from `app.py`: user-isolated lookup, status gate
(`completed` or `failed` only), best-effort backend cleanup, then
unconditional removal of the row from the persistence store.  Returns the
HTTP response, the new persistence store, and the new backend store. -/
def delete_file (tg : Nat → Bool) (db : Nat → Option FileRecord)
    (user_id file_id : Nat) : DeleteResp × (Nat → Option FileRecord) × (Nat → Bool) :=
  match db file_id with
  | none => (.notFound, db, tg)
  | some f =>
    if f.userId ≠ user_id then (.notFound, db, tg)
    else if f.status ≠ .completed ∧ f.status ≠ .failed then (.inProgress, db, tg)
    else
      (.success, fun k => if k = file_id then none else db k,
        deleteMessagesLoop tg f.messageIds)

/-! ## Theorems — Chunk Splitter -/

theorem yield_chunks_nil (C : Nat) : yield_chunks C [] = [] := by
  rw [yield_chunks]
  simp

theorem yield_chunks_zero (src : List Nat) : yield_chunks 0 src = [] := by
  rw [yield_chunks]
  simp

theorem yield_chunks_cons (C : Nat) (src : List Nat) (hC : 0 < C) (hs : src ≠ []) :
    yield_chunks C src = src.take C :: yield_chunks C (src.drop C) := by
  rw [yield_chunks]
  have : ¬ (C = 0 ∨ src = []) := by
    push_neg
    exact ⟨Nat.pos_iff_ne_zero.mp hC, hs⟩
  simp [this]

theorem yield_chunks_join_aux (C : Nat) (hC : 0 < C) :
    ∀ (n : Nat) (src : List Nat), src.length ≤ n → (yield_chunks C src).flatten = src := by
  intro n
  induction n with
  | zero =>
    intro src hle
    have : src = [] := List.eq_nil_of_length_eq_zero (by omega)
    subst this
    simp [yield_chunks_nil]
  | succ n ih =>
    intro src hle
    by_cases hs : src = []
    · subst hs
      simp [yield_chunks_nil]
    · rw [yield_chunks_cons C src hC hs]
      have hpos : 0 < src.length := List.length_pos.mpr hs
      have hdrop : (src.drop C).length ≤ n := by
        simp only [List.length_drop]
        omega
      rw [List.flatten_cons, ih _ hdrop]
      exact List.take_append_drop C src

/-- Concatenating the chunks reproduces the source. -/
theorem yield_chunks_join (C : Nat) (hC : 0 < C) (src : List Nat) :
    (yield_chunks C src).flatten = src :=
  yield_chunks_join_aux C hC src.length src le_rfl

theorem yield_chunks_length_aux (C : Nat) (hC : 0 < C) :
    ∀ (n : Nat) (src : List Nat), src.length ≤ n →
      (yield_chunks C src).length = calculate_total_chunks C src.length := by
  intro n
  induction n with
  | zero =>
    intro src hle
    have : src = [] := List.eq_nil_of_length_eq_zero (by omega)
    subst this
    simp [yield_chunks_nil, calculate_total_chunks, Nat.div_eq_of_lt (by omega : C - 1 < C)]
  | succ n ih =>
    intro src hle
    by_cases hs : src = []
    · subst hs
      simp [yield_chunks_nil, calculate_total_chunks, Nat.div_eq_of_lt (by omega : C - 1 < C)]
    · rw [yield_chunks_cons C src hC hs]
      have hpos : 0 < src.length := List.length_pos.mpr hs
      have hdrop : (src.drop C).length ≤ n := by
        simp only [List.length_drop]
        omega
      rw [List.length_cons, ih _ hdrop]
      simp only [List.length_drop, calculate_total_chunks]
      rcases Nat.lt_or_ge src.length C with hlt | hge
      · have h1 : src.length - C = 0 := by omega
        rw [h1]
        have h2 : (0 + C - 1) / C = 0 := Nat.div_eq_of_lt (by omega)
        rw [h2]
        have h3 : src.length + C - 1 = (src.length - 1) + C := by omega
        rw [h3, Nat.add_div_right _ hC, Nat.div_eq_of_lt (by omega)]
      · have h3 : src.length + C - 1 = (src.length - 1) + C := by omega
        have h4 : src.length - C + C - 1 = src.length - 1 := by omega
        rw [h3, h4, Nat.add_div_right _ hC]

/-- The number of chunks equals `calculate_total_chunks` applied to the length,
i.e. `⌈size / C⌉`. -/
theorem yield_chunks_length (C : Nat) (hC : 0 < C) (src : List Nat) :
    (yield_chunks C src).length = calculate_total_chunks C src.length :=
  yield_chunks_length_aux C hC src.length src le_rfl

theorem yield_chunks_dropLast_length_aux (C : Nat) (hC : 0 < C) :
    ∀ (n : Nat) (src : List Nat), src.length ≤ n →
      ∀ ch ∈ (yield_chunks C src).dropLast, ch.length = C := by
  intro n
  induction n with
  | zero =>
    intro src hle
    have : src = [] := List.eq_nil_of_length_eq_zero (by omega)
    subst this
    simp [yield_chunks_nil]
  | succ n ih =>
    intro src hle
    by_cases hs : src = []
    · subst hs
      simp [yield_chunks_nil]
    · rw [yield_chunks_cons C src hC hs]
      have hpos : 0 < src.length := List.length_pos.mpr hs
      by_cases hrest : yield_chunks C (src.drop C) = []
      · simp [hrest]
      · intro ch hch
        rw [List.dropLast_cons_of_ne_nil hrest] at hch
        rcases List.mem_cons.mp hch with h | h
        · subst h
          rw [List.length_take]
          by_contra hne
          have hlt : src.length < C := by omega
          have : src.drop C = [] := List.drop_eq_nil_of_le (by omega)
          rw [this, yield_chunks_nil] at hrest
          exact hrest rfl
        · have hdrop : (src.drop C).length ≤ n := by
            simp only [List.length_drop]
            omega
          exact ih _ hdrop ch h

/-- Every chunk except possibly the last has length exactly `C`. -/
theorem yield_chunks_dropLast_length (C : Nat) (hC : 0 < C) (src : List Nat) :
    ∀ ch ∈ (yield_chunks C src).dropLast, ch.length = C :=
  yield_chunks_dropLast_length_aux C hC src.length src le_rfl

theorem yield_chunks_getLast_aux (C : Nat) (hC : 0 < C) :
    ∀ (n : Nat) (src : List Nat), src.length ≤ n → src ≠ [] →
      ∃ last, (yield_chunks C src).getLast? = some last ∧
        last.length = if src.length % C = 0 then C else src.length % C := by
  intro n
  induction n with
  | zero =>
    intro src hle hs
    exact absurd (List.eq_nil_of_length_eq_zero (by omega)) hs
  | succ n ih =>
    intro src hle hs
    rw [yield_chunks_cons C src hC hs]
    have hpos : 0 < src.length := List.length_pos.mpr hs
    by_cases hrest : yield_chunks C (src.drop C) = []
    · refine ⟨src.take C, by rw [hrest]; simp, ?_⟩
      have hle' : src.length ≤ C := by
        by_contra hgt
        have hne : src.drop C ≠ [] := by
          intro hdnil
          have := congrArg List.length hdnil
          simp only [List.length_drop, List.length_nil] at this
          omega
        rw [yield_chunks_cons C _ hC hne] at hrest
        exact List.cons_ne_nil _ _ hrest
      rw [List.length_take, Nat.min_eq_right hle']
      rcases Nat.lt_or_ge src.length C with hlt | hge
      · rw [if_neg (by rw [Nat.mod_eq_of_lt hlt]; omega), Nat.mod_eq_of_lt hlt]
      · have heq : src.length = C := by omega
        rw [heq, if_pos (Nat.mod_self C)]
    · have hne : src.drop C ≠ [] := by
        intro hdnil
        rw [hdnil, yield_chunks_nil] at hrest
        exact hrest rfl
      have hCle : C ≤ src.length := by
        by_contra hgt
        exact hne (List.drop_eq_nil_of_le (by omega))
      have hdrop : (src.drop C).length ≤ n := by
        simp only [List.length_drop]
        omega
      obtain ⟨last, hl, hlen'⟩ := ih _ hdrop hne
      refine ⟨last, ?_, ?_⟩
      · rw [List.getLast?_cons, hl]
        simp
      · rw [hlen']
        simp only [List.length_drop]
        have : src.length = (src.length - C) + C := by omega
        rw [this, Nat.add_mod_right]
        have h2 : src.length - C + C - C = src.length - C := by omega
        rw [h2]

/-- The last chunk has length `size % C`, or `C` when `C` divides `size`. -/
theorem yield_chunks_getLast (C : Nat) (hC : 0 < C) (src : List Nat) (hs : src ≠ []) :
    ∃ last, (yield_chunks C src).getLast? = some last ∧
      last.length = if src.length % C = 0 then C else src.length % C :=
  yield_chunks_getLast_aux C hC src.length src le_rfl hs

/-- C1: For every non-empty finite byte source and fixed chunk size `C`, the
Chunk Splitter yields exactly `⌈size / C⌉` chunks (the code's
`calculate_total_chunks`) whose in-order concatenation reproduces the source
exactly, and every chunk has length `C` except the last, which has length
`size mod C` (or `C` when `size` is an exact multiple of `C`). -/
theorem claim_C1_chunk_splitter (C : Nat) (src : List Nat) (hC : 0 < C) (hsrc : src ≠ []) :
    (yield_chunks C src).length = calculate_total_chunks C src.length ∧
    (yield_chunks C src).flatten = src ∧
    (∀ ch ∈ (yield_chunks C src).dropLast, ch.length = C) ∧
    (∃ last, (yield_chunks C src).getLast? = some last ∧
      last.length = if src.length % C = 0 then C else src.length % C) :=
  ⟨yield_chunks_length C hC src, yield_chunks_join C hC src,
    yield_chunks_dropLast_length C hC src, yield_chunks_getLast C hC src hsrc⟩

/-- Witness for C1 at `C = 2`, `src = [7, 8, 9]`: two chunks `[7,8]`, `[9]`. -/
theorem claim_C1_chunk_splitter_witness :
    (0 < 2 ∧ ([7, 8, 9] : List Nat) ≠ []) ∧
    ((yield_chunks 2 [7, 8, 9]).length = calculate_total_chunks 2 [7, 8, 9].length ∧
     (yield_chunks 2 [7, 8, 9]).flatten = [7, 8, 9] ∧
     (∀ ch ∈ (yield_chunks 2 [7, 8, 9]).dropLast, ch.length = 2) ∧
     (∃ last, (yield_chunks 2 [7, 8, 9]).getLast? = some last ∧
       last.length = if [7, 8, 9].length % 2 = 0 then 2 else [7, 8, 9].length % 2)) :=
  ⟨⟨by decide, by decide⟩,
    claim_C1_chunk_splitter 2 [7, 8, 9] (by decide) (by decide)⟩

/-! ## Theorems — SHA-256 streaming (Merkle–Damgård buffering) -/

theorem absorb_of_lt (fuel : Nat) (hv : Hash8) (bytes : List Nat) (h : bytes.length < 64) :
    absorb fuel hv bytes = (hv, bytes) := by
  cases fuel with
  | zero => rfl
  | succ k => simp [absorb, h]

theorem absorb_fuel : ∀ (f1 f2 : Nat) (hv : Hash8) (bytes : List Nat),
    bytes.length ≤ f1 → bytes.length ≤ f2 → absorb f1 hv bytes = absorb f2 hv bytes := by
  intro f1
  induction f1 with
  | zero =>
    intro f2 hv bytes h1 h2
    have hb : bytes.length < 64 := by omega
    rw [absorb_of_lt _ _ _ hb, absorb_of_lt _ _ _ hb]
  | succ k ih =>
    intro f2 hv bytes h1 h2
    by_cases hb : bytes.length < 64
    · rw [absorb_of_lt _ _ _ hb, absorb_of_lt _ _ _ hb]
    · push_neg at hb
      cases f2 with
      | zero => omega
      | succ m =>
        simp only [absorb, if_neg (by omega : ¬ bytes.length < 64)]
        exact ih m _ _ (by simp [List.length_drop]; omega) (by simp [List.length_drop]; omega)

theorem absorbA_of_lt (hv : Hash8) (bytes : List Nat) (h : bytes.length < 64) :
    absorbA hv bytes = (hv, bytes) :=
  absorb_of_lt _ _ _ h

theorem absorbA_step (hv : Hash8) (bytes : List Nat) (h : 64 ≤ bytes.length) :
    absorbA hv bytes = absorbA (compress hv (bytes.take 64)) (bytes.drop 64) := by
  unfold absorbA
  have h1 : bytes.length = (bytes.length - 1) + 1 := by omega
  rw [h1]
  simp only [absorb, if_neg (by omega : ¬ bytes.length < 64)]
  exact absorb_fuel _ _ _ _ (by simp [List.length_drop]; omega) (by simp [List.length_drop])

/-- Feeding `x ++ b` equals feeding `x` and then feeding the leftover plus `b`:
the block decomposition of a stream is independent of call boundaries. -/
theorem absorbA_append : ∀ (n : Nat) (x : List Nat), x.length ≤ n → ∀ (hv : Hash8) (b : List Nat),
    absorbA hv (x ++ b) = absorbA (absorbA hv x).1 ((absorbA hv x).2 ++ b) := by
  intro n
  induction n with
  | zero =>
    intro x hx hv b
    have : x = [] := List.eq_nil_of_length_eq_zero (by omega)
    subst this
    rw [absorbA_of_lt hv [] (by simp)]
  | succ n ih =>
    intro x hx hv b
    by_cases hlt : x.length < 64
    · rw [absorbA_of_lt hv x hlt]
    · push_neg at hlt
      have htk : (x ++ b).take 64 = x.take 64 := List.take_append_of_le_length hlt
      have hdr : (x ++ b).drop 64 = x.drop 64 ++ b := List.drop_append_of_le_length hlt
      rw [absorbA_step hv (x ++ b) (by simp; omega), htk, hdr,
        absorbA_step hv x hlt]
      exact ih (x.drop 64) (by simp [List.length_drop]; omega) _ b

/-- Two successive `update` calls equal one `update` of the concatenation. -/
theorem Sha256Ctx.update_append (c : Sha256Ctx) (a b : List Nat) :
    (c.update a).update b = c.update (a ++ b) := by
  simp only [Sha256Ctx.update]
  rw [← List.append_assoc, absorbA_append (c.buf ++ a).length (c.buf ++ a) le_rfl c.hv b]
  simp [List.length_append, Nat.add_assoc]

theorem absorb_snd_lt : ∀ (fuel : Nat) (hv : Hash8) (bytes : List Nat),
    bytes.length ≤ fuel → (absorb fuel hv bytes).2.length < 64 := by
  intro fuel
  induction fuel with
  | zero =>
    intro hv bytes h
    have : bytes = [] := List.eq_nil_of_length_eq_zero (by omega)
    subst this
    simp [absorb]
  | succ k ih =>
    intro hv bytes h
    by_cases hb : bytes.length < 64
    · rw [absorb_of_lt _ _ _ hb]
      exact hb
    · push_neg at hb
      simp only [absorb, if_neg (by omega : ¬ bytes.length < 64)]
      exact ih _ _ (by simp [List.length_drop]; omega)

theorem update_bufOk (c : Sha256Ctx) (data : List Nat) : bufOk (c.update data) := by
  simp only [Sha256Ctx.update, bufOk, absorbA]
  exact absorb_snd_lt _ _ _ le_rfl

theorem update_nil (c : Sha256Ctx) (h : bufOk c) : c.update [] = c := by
  simp only [Sha256Ctx.update, List.append_nil]
  rw [absorbA_of_lt _ _ h]
  simp

/-- Feeding a list of blocks one `update` at a time equals one `update` of
their concatenation. -/
theorem foldl_update : ∀ (blocks : List (List Nat)) (c : Sha256Ctx), bufOk c →
    blocks.foldl Sha256Ctx.update c = c.update blocks.flatten := by
  intro blocks
  induction blocks with
  | nil =>
    intro c h
    simp [List.foldl_nil, List.flatten_nil, update_nil c h]
  | cons b bs ih =>
    intro c h
    rw [List.foldl_cons, ih (c.update b) (update_bufOk c b), Sha256Ctx.update_append,
      List.flatten_cons]

/-- C6: For every byte content, the one-shot hash of the whole content equals
the hash obtained by feeding the same bytes to the incremental accumulator in
arbitrarily split successive blocks and finalizing — the digest is independent
of block boundaries.  In particular `calculate_file_hash` (4096-byte read
blocks) agrees with the one-shot `calculate_sha256`. -/
theorem claim_C6_streaming_hash (blocks : List (List Nat)) (file : List Nat) :
    (blocks.foldl Sha256Ctx.update sha256_init).hexdigest = calculate_sha256 blocks.flatten ∧
    calculate_file_hash file = calculate_sha256 file := by
  constructor
  · rw [foldl_update blocks sha256_init (by simp [bufOk, sha256_init])]
    rfl
  · unfold calculate_file_hash
    rw [foldl_update _ sha256_init (by simp [bufOk, sha256_init]), yield_chunks_join 4096 (by norm_num) file]
    rfl

/-! ## Theorems — Upload Pipeline -/

theorem extendsRec_refl_of_eq {r r' : FileRecord} (h1 : r.messageIds = r'.messageIds)
    (h2 : r.chunkHashes = r'.chunkHashes) : extendsRec r r' := by
  constructor
  · rw [h1]
  · rw [h2]

theorem extendsRec_trans {r1 r2 r3 : FileRecord} (h12 : extendsRec r1 r2)
    (h23 : extendsRec r2 r3) : extendsRec r1 r3 :=
  ⟨h12.1.trans h23.1, h12.2.trans h23.2⟩

/-- Every state persisted by the chunk loop extends the state it started from. -/
theorem runUploadChunks_extends (env : UploadEnv) :
    ∀ (chunks : List (List Nat)) (idx : Nat) (st st' : DbState),
      st' ∈ runUploadChunks env chunks idx st → extendsRec st.record st'.record := by
  intro chunks
  induction chunks with
  | nil =>
    intro idx st st' h
    simp only [runUploadChunks, List.mem_singleton] at h
    subst h
    exact extendsRec_refl_of_eq rfl rfl
  | cons ch rest ih =>
    intro idx st st' h
    simp only [runUploadChunks] at h
    cases hsend : env.send idx with
    | fail a =>
      rw [hsend] at h
      simp only [List.mem_singleton] at h
      subst h
      exact extendsRec_refl_of_eq rfl rfl
    | ok msgId =>
      rw [hsend] at h
      rcases List.mem_cons.mp h with h | h
      · subst h
        exact ⟨⟨_, rfl⟩, ⟨_, rfl⟩⟩
      · exact extendsRec_trans ⟨⟨_, rfl⟩, ⟨_, rfl⟩⟩ (ih _ _ _ h)

/-- The chunk loop's trace is pairwise append-only. -/
theorem runUploadChunks_pairwise (env : UploadEnv) :
    ∀ (chunks : List (List Nat)) (idx : Nat) (st : DbState),
      List.Pairwise (fun s t : DbState => extendsRec s.record t.record)
        (runUploadChunks env chunks idx st) := by
  intro chunks
  induction chunks with
  | nil =>
    intro idx st
    simp [runUploadChunks]
  | cons ch rest ih =>
    intro idx st
    simp only [runUploadChunks]
    cases hsend : env.send idx with
    | fail a => simp
    | ok msgId =>
      refine List.Pairwise.cons ?_ (ih _ _)
      intro st' h
      exact runUploadChunks_extends env rest (idx + 1) _ st' h

/-- The chunk loop preserves the length invariant at every persisted state. -/
theorem runUploadChunks_inSync (env : UploadEnv) :
    ∀ (chunks : List (List Nat)) (idx : Nat) (st : DbState),
      st.record.uploadedChunks = idx → recordInSync st.record →
      ∀ st' ∈ runUploadChunks env chunks idx st, recordInSync st'.record := by
  intro chunks
  induction chunks with
  | nil =>
    intro idx st hidx hsync st' h
    simp only [runUploadChunks, List.mem_singleton] at h
    subst h
    exact hsync
  | cons ch rest ih =>
    intro idx st hidx hsync st' h
    simp only [runUploadChunks] at h
    cases hsend : env.send idx with
    | fail a =>
      rw [hsend] at h
      simp only [List.mem_singleton] at h
      subst h
      exact hsync
    | ok msgId =>
      rw [hsend] at h
      rcases List.mem_cons.mp h with h | h
      · subst h
        obtain ⟨e1, e2⟩ := hsync
        constructor
        · simp [List.length_append, e1]
        · simp [List.length_append, e2, hidx]
      · refine ih (idx + 1) _ ?_ ?_ st' h
        · rfl
        · obtain ⟨e1, e2⟩ := hsync
          constructor
          · simp [List.length_append, e1]
          · simp [List.length_append, e2, hidx]

/-- C3: At every observable (persisted) point of an upload, the record
satisfies `len(chunkLocators) == len(chunkHashes) == uploadedChunkCount`, and
across any two observable points the locator and hash sequences are only ever
appended to — never rewritten or truncated (lists at an earlier point are
initial segments of the lists at every later point). -/
theorem claim_C3_upload_record_invariants (env : UploadEnv) (user : Nat) (filename : String)
    (fileBytes : List Nat) (credsOk : Bool) :
    (∀ st ∈ uploadTrace env user filename fileBytes credsOk, recordInSync st.record) ∧
    List.Pairwise (fun s t : DbState => extendsRec s.record t.record)
      (uploadTrace env user filename fileBytes credsOk) := by
  unfold uploadTrace uploadWorkerRun
  cases hp : env.preflightError with
  | some a =>
    constructor
    · intro st h
      rcases List.mem_cons.mp h with h | h
      · subst h
        exact ⟨rfl, rfl⟩
      · simp only [List.mem_singleton] at h
        subst h
        exact ⟨rfl, rfl⟩
    · refine List.Pairwise.cons ?_ (by simp)
      intro st' h
      simp only [List.mem_singleton] at h
      subst h
      exact extendsRec_refl_of_eq rfl rfl
  | none =>
    constructor
    · intro st h
      rcases List.mem_cons.mp h with h | h
      · subst h
        exact ⟨rfl, rfl⟩
      · rcases List.mem_cons.mp h with h | h
        · subst h
          exact ⟨rfl, rfl⟩
        · exact runUploadChunks_inSync env _ 0 _ rfl ⟨rfl, rfl⟩ st h
    · refine List.Pairwise.cons ?_ (List.Pairwise.cons ?_ (runUploadChunks_pairwise env _ 0 _))
      · intro st' h
        rcases List.mem_cons.mp h with h | h
        · subst h
          exact extendsRec_refl_of_eq rfl rfl
        · have hext := runUploadChunks_extends env _ 0 _ st' h
          refine extendsRec_trans ?_ hext
          exact extendsRec_refl_of_eq rfl rfl
      · intro st' h
        exact runUploadChunks_extends env _ 0 _ st' h

/-- The chunk loop never returns an empty trace. -/
theorem runUploadChunks_ne_nil (env : UploadEnv) (chunks : List (List Nat)) (idx : Nat)
    (st : DbState) : runUploadChunks env chunks idx st ≠ [] := by
  cases chunks with
  | nil => simp [runUploadChunks]
  | cons ch rest =>
    simp only [runUploadChunks]
    cases env.send idx with
    | fail a => simp [failState]
    | ok msgId => simp

/-- If some attempted chunk's send fails, the loop ends in the `except`-branch
commit: status failed, credential flag cleared exactly for auth failures. -/
theorem runUploadChunks_firstFailure (env : UploadEnv) :
    ∀ (chunks : List (List Nat)) (idx : Nat) (st : DbState) (a : Bool),
      firstSendFailure env.send idx chunks.length = some a →
      ∃ st', (runUploadChunks env chunks idx st).getLast? = some st' ∧
        st'.record.status = .failed ∧
        st'.credentialsVerified = (st.credentialsVerified && !a) := by
  intro chunks
  induction chunks with
  | nil =>
    intro idx st a h
    simp [firstSendFailure] at h
  | cons ch rest ih =>
    intro idx st a h
    simp only [List.length_cons, firstSendFailure] at h
    simp only [runUploadChunks]
    cases hsend : env.send idx with
    | fail b =>
      rw [hsend] at h
      simp only [Option.some.injEq] at h
      subst h
      refine ⟨failState st b, by simp, rfl, ?_⟩
      cases b <;> simp [failState]
    | ok msgId =>
      rw [hsend] at h
      obtain ⟨st', hlast, hstat, hcred⟩ := ih (idx + 1)
        { st with record :=
            { st.record with uploadedChunks := idx + 1,
                             messageIds := st.record.messageIds ++ [msgId],
                             chunkHashes := st.record.chunkHashes ++ [calculate_sha256 ch] } } a h
      refine ⟨st', ?_, hstat, hcred⟩
      rw [List.getLast?_cons, hlast]
      rfl

/-- Dropping the head of a list with a non-empty tail keeps the last element. -/
theorem getLast?_cons_ne {α : Type _} (a : α) (l : List α) (h : l ≠ []) :
    (a :: l).getLast? = l.getLast? := by
  cases l with
  | nil => exact absurd rfl h
  | cons b t => exact List.getLast?_cons_cons

/-- C4: For every upload on which the preflight probe or any attempted chunk
fails, the file record ends in `status=failed`; the owning account's
credential is flagged unverified exactly when the failure is an authorization
failure, and is unchanged otherwise. -/
theorem claim_C4_auth_failure_flags_credentials (env : UploadEnv) (user : Nat)
    (filename : String) (fileBytes : List Nat) (credsOk : Bool) (a : Bool)
    (hfail : firstUploadFailure env (yield_chunks CHUNK_SIZE_BYTES fileBytes).length = some a) :
    ∃ st, (uploadTrace env user filename fileBytes credsOk).getLast? = some st ∧
      st.record.status = .failed ∧
      st.credentialsVerified = (credsOk && !a) := by
  unfold uploadTrace uploadWorkerRun
  unfold firstUploadFailure at hfail
  cases hp : env.preflightError with
  | some b =>
    rw [hp] at hfail
    simp only [Option.some.injEq] at hfail
    subst hfail
    refine ⟨failState { record := initialRecord user filename fileBytes.length,
                        credentialsVerified := credsOk } b, by simp, rfl, ?_⟩
    cases b <;> simp [failState]
  | none =>
    rw [hp] at hfail
    obtain ⟨st', hlast, hstat, hcred⟩ :=
      runUploadChunks_firstFailure env (yield_chunks CHUNK_SIZE_BYTES fileBytes) 0 _ a hfail
    refine ⟨st', ?_, hstat, ?_⟩
    · rw [getLast?_cons_ne _ _ (by simp),
        getLast?_cons_ne _ _ (runUploadChunks_ne_nil env _ 0 _)]
      exact hlast
    · exact hcred

/-- Witness for C4: a preflight authorization failure on any upload leaves the
record failed and the credential flag cleared. -/
theorem claim_C4_auth_failure_flags_credentials_witness :
    firstUploadFailure ⟨some true, fun _ => .ok 0⟩
        (yield_chunks CHUNK_SIZE_BYTES []).length = some true ∧
    ∃ st, (uploadTrace ⟨some true, fun _ => .ok 0⟩ 1 "f" [] true).getLast? = some st ∧
      st.record.status = .failed ∧
      st.credentialsVerified = (true && !true) :=
  ⟨rfl, claim_C4_auth_failure_flags_credentials ⟨some true, fun _ => .ok 0⟩ 1 "f" [] true true rfl⟩

/-- C10: A zero-byte source is not rejected: the splitter yields zero chunks,
the computed chunk count is 0, the run is independent of the send oracle (no
backend send occurs), and the pipeline ends with `status=completed`,
`uploaded_chunks = 0` and empty locator/hash sequences. -/
theorem claim_C10_zero_byte_upload_completes (user : Nat) (filename : String) (credsOk : Bool)
    (send1 send2 : Nat → SendOutcome) :
    yield_chunks CHUNK_SIZE_BYTES ([] : List Nat) = [] ∧
    calculate_total_chunks CHUNK_SIZE_BYTES 0 = 0 ∧
    uploadTrace ⟨none, send1⟩ user filename [] credsOk =
      uploadTrace ⟨none, send2⟩ user filename [] credsOk ∧
    (∃ st, (uploadTrace ⟨none, send1⟩ user filename [] credsOk).getLast? = some st ∧
      st.record.status = .completed ∧ st.record.uploadedChunks = 0 ∧
      st.record.messageIds = [] ∧ st.record.chunkHashes = [] ∧ st.record.chunks = 0) := by
  refine ⟨yield_chunks_nil _, by decide, ?_, ?_⟩
  · simp [uploadTrace, uploadWorkerRun, yield_chunks_nil, runUploadChunks]
  · unfold uploadTrace uploadWorkerRun
    rw [yield_chunks_nil]
    exact ⟨{ record := { userId := user, filename := filename, size := 0,
                         chunks := calculate_total_chunks CHUNK_SIZE_BYTES 0,
                         uploadedChunks := 0, messageIds := [], chunkHashes := [],
                         fileHash := some (calculate_file_hash []), status := .completed },
             credentialsVerified := credsOk }, rfl, rfl, rfl, rfl, rfl,
           (by decide : calculate_total_chunks CHUNK_SIZE_BYTES 0 = 0)⟩

/-! ## Theorems — prepareDownload status gate -/

/-- C5: `prepare_download_data` returns streaming metadata only for a record
in `completed` status; every record in `uploading` or `failed` status gets the
`File not ready` error (HTTP 400), so no partially uploaded file's locators or
hashes are ever exposed; a missing id returns Python `None`. -/
theorem claim_C5_prepare_download_status_gate (db : Nat → Option FileRecord) (fid : Nat) :
    (db fid = none → prepare_download_data db fid = .missing) ∧
    (∀ r, db fid = some r → (r.status = .uploading ∨ r.status = .failed) →
      prepare_download_data db fid = .error "File not ready for download" 400) ∧
    (∀ r dd, db fid = some r → prepare_download_data db fid = .ok dd →
      r.status = .completed ∧ dd.message_ids = r.messageIds ∧
      dd.chunk_hashes = r.chunkHashes) := by
  refine ⟨?_, ?_, ?_⟩
  · intro h
    unfold prepare_download_data
    rw [h]
  · intro r hr hst
    have hne : r.status ≠ .completed := by
      rcases hst with h | h <;> simp [h]
    simp [prepare_download_data, hr, hne]
  · intro r dd hr hok
    simp only [prepare_download_data, hr] at hok
    split at hok
    · exact absurd hok (by simp)
    · split at hok
      · exact absurd hok (by simp)
      · simp only [PrepareResult.ok.injEq] at hok
        subst hok
        rename_i hcomp hnil
        exact ⟨by simpa using hcomp, rfl, rfl⟩

/-- Witness for C5: a record still `uploading` is gated with the 400 error,
and a missing id yields `None`. -/
theorem claim_C5_prepare_download_status_gate_witness :
    prepare_download_data
        (fun _ => some { userId := 1, filename := "f", size := 3, chunks := 1,
                         uploadedChunks := 0, messageIds := [], chunkHashes := [],
                         fileHash := none, status := .uploading }) 1 =
      .error "File not ready for download" 400 ∧
    prepare_download_data (fun _ => none) 0 = .missing :=
  ⟨(claim_C5_prepare_download_status_gate
      (fun _ => some { userId := 1, filename := "f", size := 3, chunks := 1,
                       uploadedChunks := 0, messageIds := [], chunkHashes := [],
                       fileHash := none, status := .uploading }) 1).2.1
      _ rfl (Or.inl rfl),
   (claim_C5_prepare_download_status_gate (fun _ => none) 0).1 rfl⟩

/-! ## Theorems — Download Pipeline -/

/-- A fully verifying chunk is streamed in full with no exception. -/
theorem stream_single_ok (ch : BackendChunk) (hsh : String) (i : Nat)
    (h : chunkOk ch hsh) :
    stream_single_chunk_verified ch hsh i = (emittedBlocks ch, none) := by
  obtain ⟨h1, h2, h3, h4, h5, h6⟩ := h
  simp [stream_single_chunk_verified, h1, h2, h3, h4, h5, h6]

/-- Chunks that all verify are passed through in full and the run continues at
the next index. -/
theorem runDlChunks_ok_segment (backend : Credential → Nat → BackendChunk) (cred : Credential)
    (hashes : List String) :
    ∀ (pre : List Nat) (n : Nat) (ms : List Nat),
      (∀ j (hj : j < pre.length), ∃ hsh, hashes[n + j]? = some hsh ∧
          chunkOk (backend cred (pre.get ⟨j, hj⟩)) hsh) →
      runDlChunks backend cred hashes n (pre ++ ms) =
        ((pre.map (fun m => emittedBlocks (backend cred m))).flatten ++
            (runDlChunks backend cred hashes (n + pre.length) ms).1,
          (runDlChunks backend cred hashes (n + pre.length) ms).2) := by
  intro pre
  induction pre with
  | nil =>
    intro n ms hpre
    simp
  | cons p pre ih =>
    intro n ms hpre
    obtain ⟨hsh, hget, hok⟩ := hpre 0 (by simp)
    simp only [Nat.add_zero] at hget
    have hokp : chunkOk (backend cred p) hsh := hok
    rw [List.cons_append]
    simp only [runDlChunks]
    simp only [hget]
    simp only [stream_single_ok _ _ _ hokp]
    have hpre' : ∀ j (hj : j < pre.length), ∃ hsh, hashes[(n + 1) + j]? = some hsh ∧
        chunkOk (backend cred (pre.get ⟨j, hj⟩)) hsh := by
      intro j hj
      obtain ⟨hsh', hget', hok'⟩ := hpre (j + 1) (by simp; omega)
      refine ⟨hsh', ?_, ?_⟩
      · rw [show (n + 1) + j = n + (j + 1) by omega]
        exact hget'
      · exact hok'
    rw [ih (n + 1) ms hpre']
    simp only [List.map_cons, List.flatten_cons, List.append_assoc, List.length_cons]
    rw [show n + (pre.length + 1) = (n + 1) + pre.length by omega]

/-- C2: If a downloaded chunk's finalized incremental hash differs from the
recorded hash for that chunk (each earlier chunk verifying), the download
pipeline aborts with the integrity error at that chunk's position: the bytes
already emitted — the earlier chunks and the corrupted chunk's own blocks —
are exactly the output, so nothing of that chunk is retracted and no bytes of
any later chunk are ever emitted. -/
theorem claim_C2_hash_mismatch_aborts (backend : Credential → Nat → BackendChunk)
    (env : OsEnv) (dd : DownloadData) (pre post : List Nat) (m : Nat)
    (hsplit : dd.message_ids = pre ++ m :: post)
    (hpre : ∀ j (hj : j < pre.length), ∃ hsh, dd.chunk_hashes[j]? = some hsh ∧
        chunkOk (backend (mkTelegramClient none none env) (pre.get ⟨j, hj⟩)) hsh)
    (hbad : ∃ hsh, dd.chunk_hashes[pre.length]? = some hsh ∧
        (backend (mkTelegramClient none none env) m).forwardOk = true ∧
        (backend (mkTelegramClient none none env) m).hasDocument = true ∧
        (backend (mkTelegramClient none none env) m).deleteOk = true ∧
        (backend (mkTelegramClient none none env) m).resolveOk = true ∧
        (backend (mkTelegramClient none none env) m).fetchOk = true ∧
        chunkStreamHash (backend (mkTelegramClient none none env) m) ≠ hsh) :
    create_download_stream backend env dd =
      ((pre.map (fun k => emittedBlocks (backend (mkTelegramClient none none env) k))).flatten ++
          emittedBlocks (backend (mkTelegramClient none none env) m),
        some (.hashMismatch pre.length)) := by
  unfold create_download_stream
  rw [hsplit]
  rw [runDlChunks_ok_segment backend _ dd.chunk_hashes pre 0 (m :: post)
    (by simpa using hpre)]
  obtain ⟨hsh, hget, h1, h2, h3, h4, h5, h6⟩ := hbad
  simp only [Nat.zero_add]
  simp only [runDlChunks]
  simp only [hget]
  simp [stream_single_chunk_verified, h1, h2, h3, h4, h5, h6]

/-- Witness for C2: a single stored chunk streaming block `[1]` against the
recorded hash `"zz"` — the mismatch aborts at position 0 after the block was
already passed through. -/
theorem claim_C2_hash_mismatch_aborts_witness :
    chunkStreamHash ⟨true, true, true, true, true, [[1]]⟩ ≠ "zz" ∧
    create_download_stream (fun _ _ => ⟨true, true, true, true, true, [[1]]⟩)
        ⟨"t", "c", "s", "u"⟩ ⟨"f", 1, [5], ["zz"], 1⟩ =
      ([[1]], some (.hashMismatch 0)) :=
  ⟨by decide,
    claim_C2_hash_mismatch_aborts (fun _ _ => ⟨true, true, true, true, true, [[1]]⟩)
      ⟨"t", "c", "s", "u"⟩ ⟨"f", 1, [5], ["zz"], 1⟩ [] [] 5 rfl
      (fun j hj => absurd hj (Nat.not_lt_zero j))
      ⟨"zz", rfl, rfl, rfl, rfl, rfl, rfl, by decide⟩⟩

/-- C7 counterexample: one stored chunk whose duplicate-message delete fails
while every other step would succeed.  The pipeline aborts at that chunk with
the delete failure and yields none of the chunk's bytes — the delete is not
tolerated, contradicting the claim that it is best-effort cleanup. -/
theorem claim_C7_counterexample :
    create_download_stream (fun _ _ => ⟨true, true, false, true, true, [[9]]⟩)
        ⟨"t", "c", "s", "u"⟩ ⟨"f", 1, [5], ["h1"], 1⟩ =
      ([], some (.deleteFailed 0)) := by
  decide

/-- C7 (amended): a failure of the `deleteMessage` call on the duplicate
created by the forward is **not** tolerated: the unguarded call raises,
aborting the download of that chunk and of the file — the chunk contributes
no bytes, and only the verified chunks before it were emitted. -/
theorem claim_C7_delete_failure_aborts (backend : Credential → Nat → BackendChunk)
    (env : OsEnv) (dd : DownloadData) (pre post : List Nat) (m : Nat)
    (hsplit : dd.message_ids = pre ++ m :: post)
    (hpre : ∀ j (hj : j < pre.length), ∃ hsh, dd.chunk_hashes[j]? = some hsh ∧
        chunkOk (backend (mkTelegramClient none none env) (pre.get ⟨j, hj⟩)) hsh)
    (hdel : ∃ hsh, dd.chunk_hashes[pre.length]? = some hsh ∧
        (backend (mkTelegramClient none none env) m).forwardOk = true ∧
        (backend (mkTelegramClient none none env) m).hasDocument = true ∧
        (backend (mkTelegramClient none none env) m).deleteOk = false) :
    create_download_stream backend env dd =
      ((pre.map (fun k => emittedBlocks (backend (mkTelegramClient none none env) k))).flatten,
        some (.deleteFailed pre.length)) := by
  unfold create_download_stream
  rw [hsplit]
  rw [runDlChunks_ok_segment backend _ dd.chunk_hashes pre 0 (m :: post)
    (by simpa using hpre)]
  obtain ⟨hsh, hget, h1, h2, h3⟩ := hdel
  simp only [Nat.zero_add]
  simp only [runDlChunks]
  simp only [hget]
  simp [stream_single_chunk_verified, h1, h2, h3]

/-- Witness for C7's amended statement: a one-chunk download whose delete
fails aborts with `deleteFailed 0` and emits nothing. -/
theorem claim_C7_delete_failure_aborts_witness :
    (⟨true, true, false, true, true, [[1], [2]]⟩ : BackendChunk).deleteOk = false ∧
    create_download_stream (fun _ _ => ⟨true, true, false, true, true, [[1], [2]]⟩)
        ⟨"tok", "chan", "sec", "upl"⟩ ⟨"g", 2, [11], ["hh"], 1⟩ =
      ([], some (.deleteFailed 0)) :=
  ⟨rfl,
    claim_C7_delete_failure_aborts (fun _ _ => ⟨true, true, false, true, true, [[1], [2]]⟩)
      ⟨"tok", "chan", "sec", "upl"⟩ ⟨"g", 2, [11], ["hh"], 1⟩ [] [] 11 rfl
      (fun j hj => absurd hj (Nat.not_lt_zero j))
      ⟨"hh", rfl, rfl, rfl, rfl⟩⟩

set_option maxRecDepth 8000 in
/-- C8 counterexample: `create_download_stream` takes no credential argument —
it builds `TelegramClient()` from the ambient process environment.  With the
same metadata and the same backend, changing only the ambient `BOT_TOKEN`
changes the bytes the stream emits, contradicting the claim that the output
is a function of the passed metadata and credential alone, independent of any
process-wide default. -/
theorem claim_C8_counterexample :
    (create_download_stream
        (fun c _ => ⟨true, true, true, true, true, [[if c.token = "tokenA" then 1 else 2]]⟩)
        ⟨"tokenA", "chan", "s", "u"⟩ ⟨"f", 1, [5], ["zz"], 1⟩).1 ≠
      (create_download_stream
        (fun c _ => ⟨true, true, true, true, true, [[if c.token = "tokenA" then 1 else 2]]⟩)
        ⟨"tokenB", "chan", "s", "u"⟩ ⟨"f", 1, [5], ["zz"], 1⟩).1 := by
  decide

/-- C8 (amended): the stream is a function of the metadata, the backend and
the ambient default credential only: two environments that agree on
`BOT_TOKEN` and `CHANNEL_ID` (whatever their other variables) produce
identical streams for the same metadata; no per-call credential exists. -/
theorem claim_C8_ambient_credential_determinism (backend : Credential → Nat → BackendChunk)
    (env1 env2 : OsEnv) (dd : DownloadData)
    (htok : env1.BOT_TOKEN = env2.BOT_TOKEN) (hchan : env1.CHANNEL_ID = env2.CHANNEL_ID) :
    create_download_stream backend env1 dd = create_download_stream backend env2 dd := by
  unfold create_download_stream mkTelegramClient
  rw [htok, hchan]

/-- Witness for C8's amended statement: environments differing only in
`SECRET_KEY` and `UPLOAD_FOLDER` give identical streams. -/
theorem claim_C8_ambient_credential_determinism_witness :
    (OsEnv.mk "t" "c" "s1" "u1").BOT_TOKEN = (OsEnv.mk "t" "c" "s2" "u2").BOT_TOKEN ∧
    (OsEnv.mk "t" "c" "s1" "u1").CHANNEL_ID = (OsEnv.mk "t" "c" "s2" "u2").CHANNEL_ID ∧
    create_download_stream (fun _ _ => ⟨true, true, true, true, true, [[3]]⟩)
        (OsEnv.mk "t" "c" "s1" "u1") ⟨"f", 1, [5], ["zz"], 1⟩ =
      create_download_stream (fun _ _ => ⟨true, true, true, true, true, [[3]]⟩)
        (OsEnv.mk "t" "c" "s2" "u2") ⟨"f", 1, [5], ["zz"], 1⟩ :=
  ⟨rfl, rfl,
    claim_C8_ambient_credential_determinism (fun _ _ => ⟨true, true, true, true, true, [[3]]⟩)
      (OsEnv.mk "t" "c" "s1" "u1") (OsEnv.mk "t" "c" "s2" "u2") ⟨"f", 1, [5], ["zz"], 1⟩
      rfl rfl⟩

/-! ## Theorems — file deletion route -/

/-- C9: deleting a completed or failed record succeeds and removes the row
from the persistence store for **every** backend state — in particular when
all the record's locators are already gone and every per-locator delete
fails; those failures are swallowed by the cleanup loop and never propagate. -/
theorem claim_C9_delete_ignores_backend_failures (tg : Nat → Bool)
    (db : Nat → Option FileRecord) (user_id file_id : Nat) (f : FileRecord)
    (hdb : db file_id = some f) (howner : f.userId = user_id)
    (hstat : f.status = .completed ∨ f.status = .failed) :
    (delete_file tg db user_id file_id).1 = .success ∧
    (delete_file tg db user_id file_id).2.1 file_id = none := by
  unfold delete_file
  simp only [hdb]
  have h1 : ¬ f.userId ≠ user_id := by simp [howner]
  rw [if_neg h1]
  have h2 : ¬ (f.status ≠ .completed ∧ f.status ≠ .failed) := by
    rcases hstat with h | h <;> simp [h]
  rw [if_neg h2]
  exact ⟨rfl, by simp⟩

/-- Witness for C9: a completed two-locator record against a backend where
every message is already gone (`tg = fun _ => false`) — the route still
succeeds and the row disappears. -/
theorem claim_C9_delete_ignores_backend_failures_witness :
    ((fun _ => some { userId := 7, filename := "f", size := 2, chunks := 1,
                      uploadedChunks := 1, messageIds := [3, 4], chunkHashes := ["a", "b"],
                      fileHash := none, status := .completed } :
        Nat → Option FileRecord) 1 =
      some { userId := 7, filename := "f", size := 2, chunks := 1,
             uploadedChunks := 1, messageIds := [3, 4], chunkHashes := ["a", "b"],
             fileHash := none, status := FileStatus.completed }) ∧
    ((delete_file (fun _ => false)
        (fun _ => some { userId := 7, filename := "f", size := 2, chunks := 1,
                         uploadedChunks := 1, messageIds := [3, 4], chunkHashes := ["a", "b"],
                         fileHash := none, status := .completed }) 7 1).1 = .success ∧
      (delete_file (fun _ => false)
        (fun _ => some { userId := 7, filename := "f", size := 2, chunks := 1,
                         uploadedChunks := 1, messageIds := [3, 4], chunkHashes := ["a", "b"],
                         fileHash := none, status := .completed }) 7 1).2.1 1 = none) :=
  ⟨rfl,
    claim_C9_delete_ignores_backend_failures (fun _ => false)
      (fun _ => some { userId := 7, filename := "f", size := 2, chunks := 1,
                       uploadedChunks := 1, messageIds := [3, 4], chunkHashes := ["a", "b"],
                       fileHash := none, status := .completed }) 7 1
      _ rfl rfl (Or.inl rfl)⟩

end TGStorage
